import Mathlib

/-!
Verification development for the dcmtag2table OsiriX/Horos plugin pipeline:
a shallow embedding of the parallel DICOM tag extraction engine
(`python_script/dcmtag2table/dcmtag2table.py`), the CLI tag-list resolver
(`python_script/main.py`) and the inverted index builder
(`python_script/build_inverted_index.py`), together with theorems about
their behaviour.

Modelling conventions:
- Python strings are Lean `String`; `str.strip()` is `pyStrip`;
  Python `sorted` on strings (and `json.dump` with `sort_keys=True`) is
  `List.insertionSort` over the code-point lexicographic order `strLe`
  (both are stable sorts producing an ascending lexicographic order).
- A CSV table read by `csv.DictReader` is a header `List String` plus data
  rows `List (List String)`; `row.get(col)` is `rowGet`, reproducing
  `dict(zip(fieldnames, row))` with `restval = None` padding (last
  occurrence of a duplicated field name wins, short rows pad with `none`).
- Python `set` objects are insertion-ordered duplicate-free lists; the
  nondeterminism of set iteration order is modelled by quantifying over
  permutations of those lists.
- The pydicom dataset of a file is an oracle
  `String → Option (String → Option String)`: a file path maps to `none`
  when `pydicom.dcmread` (or anything else inside `_read_dicom_tags`)
  fails, otherwise to the attribute lookup function of the dataset.
- The nondeterministic completion order of the process pool
  (`as_completed`) is an explicit `order` parameter, constrained in the
  theorems to be a permutation of the scheduled file list.
-/

namespace Dcm

/-- `MISSING_TOKENS` from `build_inverted_index.py` (lines 19-28): the
default set of cell values treated as missing. -/
def MISSING_TOKENS : List String :=
  ["", "Not found", "None", "none", "NULL", "null", "nan", "NaN"]

/-- A value map of one attribute: observed value to the set of study
identifiers (a Python `defaultdict(set)`, sets as insertion-ordered
duplicate-free lists). -/
abbrev ValueMap := List (String × List String)

/-- The full inverted index: attribute name to its value map (a Python
dict in insertion order). -/
abbrev InvIndex := List (String × ValueMap)

/-- The whitespace characters stripped by Python `str.strip()`. -/
def isSpaceChar (c : Char) : Bool :=
  c == ' ' || c == '\t' || c == '\n' || c == '\r' || c == '\x0b' || c == '\x0c'

/-- Python `str.strip()`: remove leading and trailing whitespace. -/
def pyStrip (s : String) : String :=
  String.mk (((s.data.dropWhile isSpaceChar).reverse.dropWhile isSpaceChar).reverse)

/-- Split a character list at newline characters. -/
def splitNl : List Char → List (List Char)
  | [] => [[]]
  | c :: cs =>
    match splitNl cs, c == '\n' with
    | r, true => [] :: r
    | [], false => [[c]]
    | h :: t, false => (c :: h) :: t

/-- Python `str.splitlines()` restricted to `\n` separators (the
surrounding line filter drops the blank artefacts of trailing
newlines, so the difference to Python's behaviour is unobservable). -/
def splitLines (s : String) : List String :=
  (splitNl s.data).map String.mk

/-- Characters matching the regex class `[A-Za-z0-9._-]` of
`sanitize_filename`. -/
def isSafeChar (c : Char) : Bool :=
  c.isUpper || c.isLower || c.isDigit || c == '.' || c == '_' || c == '-'

/-- One pass of `re.sub(r"[^A-Za-z0-9._-]+", "_", tag)`: every maximal run
of unsafe characters becomes a single underscore. `prevUnsafe` records
whether the previous character was part of an unsafe run. -/
def collapseUnsafe (prevUnsafe : Bool) : List Char → List Char
  | [] => []
  | c :: cs =>
    if isSafeChar c then c :: collapseUnsafe false cs
    else if prevUnsafe then collapseUnsafe true cs
    else '_' :: collapseUnsafe true cs

/-- Characters stripped from both ends by `.strip("._")`. -/
def isDotOrUnderscore (c : Char) : Bool :=
  c == '.' || c == '_'

/-- `str.strip("._")` on a character list. -/
def stripEnds (l : List Char) : List Char :=
  ((l.dropWhile isDotOrUnderscore).reverse.dropWhile isDotOrUnderscore).reverse

/-- `sanitize_filename` from `build_inverted_index.py` (lines 62-64). -/
def sanitize_filename (tag : String) : String :=
  let safe := String.mk (stripEnds (collapseUnsafe false tag.data))
  if safe.isEmpty then "tag" else safe

/-- `row.get(col)` on a `csv.DictReader` row: the dict is
`dict(zip(fieldnames, row))` completed with `restval = None` for the
field names beyond the row's length, so each header position pairs with
`some` cell or `none`, and for a duplicated field name the last pairing
wins. -/
def rowGet (header row : List String) (col : String) : Option String :=
  match ((header.zip (row.map some ++ List.replicate header.length none)).filter
      (fun p => p.1 == col)).getLast? with
  | some p => p.2
  | none => none

/-- Python `set.add`: append the element unless already present. -/
def setAdd (s : List String) (x : String) : List String :=
  if x ∈ s then s else s ++ [x]

/-- `indexes[tag][value].add(study_uid)` restricted to one value map:
`defaultdict(set)` creates the entry on first touch. -/
def amUpdate (vm : ValueMap) (v uid : String) : ValueMap :=
  if vm.any (fun p => p.1 == v) then
    vm.map (fun p => if p.1 == v then (p.1, setAdd p.2 uid) else p)
  else vm ++ [(v, [uid])]

/-- `indexes[tag][value].add(study_uid)` on the whole index: the `tag`
key already exists (it was created by the initial dict comprehension). -/
def ixUpdate (ix : InvIndex) (tag v uid : String) : InvIndex :=
  ix.map (fun e => if e.1 == tag then (e.1, amUpdate e.2 v uid) else e)

/-- The dict comprehension `{tag: defaultdict(set) for tag in tags}`:
a duplicated tag re-assigns the existing key (keeping its first
position), so duplicates collapse to a single empty entry. -/
def initIndexes (tags : List String) : InvIndex :=
  tags.foldl (fun ix t => if ix.any (fun e => e.1 == t) then ix else ix ++ [(t, [])]) []

/-- The body of the row loop of `build_indexes` (lines 93-105): read and
trim the key column (`row.get(study_uid_column) or ""` maps an absent or
falsy cell to the empty string), skip the whole row when it is a missing
token, otherwise fold the per-tag updates. -/
def processRow (header : List String) (tags : List String) (study_uid_column : String)
    (missing_tokens : List String) (ix : InvIndex) (row : List String) : InvIndex :=
  let uid := pyStrip ((rowGet header row study_uid_column).getD "")
  if uid ∈ missing_tokens then ix
  else
    tags.foldl (fun ix tag =>
      match rowGet header row tag with
      | none => ix
      | some raw =>
        if pyStrip raw ∈ missing_tokens then ix
        else ixUpdate ix tag (pyStrip raw) uid) ix

/-- Lexicographic comparison of character lists by Unicode code point,
the order Python uses to compare strings. -/
def charListLe : List Char → List Char → Bool
  | [], _ => true
  | _ :: _, [] => false
  | c :: cs, d :: ds =>
    if c.toNat < d.toNat then true
    else if d.toNat < c.toNat then false
    else charListLe cs ds

/-- Python string comparison `a <= b` (code-point lexicographic). -/
def strLe (a b : String) : Prop :=
  charListLe a.data b.data = true

instance : DecidableRel strLe :=
  fun a b => inferInstanceAs (Decidable (charListLe a.data b.data = true))

theorem charListLe_total : ∀ a b : List Char, charListLe a b = true ∨ charListLe b a = true := by
  intro a
  induction a with
  | nil => intro b; exact Or.inl rfl
  | cons c cs ih =>
    intro b
    cases b with
    | nil => exact Or.inr rfl
    | cons d ds =>
      by_cases h1 : c.toNat < d.toNat
      · exact Or.inl (by simp [charListLe, h1])
      · by_cases h2 : d.toNat < c.toNat
        · exact Or.inr (by simp [charListLe, h2])
        · rcases ih ds with h | h
          · exact Or.inl (by simp [charListLe, h1, h2, h])
          · exact Or.inr (by simp [charListLe, h1, h2, h])

theorem charListLe_trans : ∀ a b c : List Char,
    charListLe a b = true → charListLe b c = true → charListLe a c = true := by
  intro a
  induction a with
  | nil => intro b c _ _; rfl
  | cons x xs ih =>
    intro b c hab hbc
    cases b with
    | nil => simp [charListLe] at hab
    | cons y ys =>
      cases c with
      | nil => simp [charListLe] at hbc
      | cons z zs =>
        simp only [charListLe] at hab hbc ⊢
        by_cases hxy : x.toNat < y.toNat
        · by_cases hyz : y.toNat < z.toNat
          · simp [Nat.lt_trans hxy hyz]
          · by_cases hzy : z.toNat < y.toNat
            · simp [hyz, hzy] at hbc
            · have hyz' : y.toNat = z.toNat := Nat.le_antisymm (Nat.le_of_not_lt hzy) (Nat.le_of_not_lt hyz)
              simp [hyz' ▸ hxy]
        · by_cases hyx : y.toNat < x.toNat
          · simp [hxy, hyx] at hab
          · have hxy' : x.toNat = y.toNat := Nat.le_antisymm (Nat.le_of_not_lt hyx) (Nat.le_of_not_lt hxy)
            simp only [hxy, hyx, if_false, if_true] at hab
            by_cases hyz : y.toNat < z.toNat
            · simp [hxy' ▸ hyz]
            · by_cases hzy : z.toNat < y.toNat
              · simp [hyz, hzy] at hbc
              · simp only [hyz, hzy, if_false, if_true] at hbc
                simp [hxy' ▸ hyz, hxy' ▸ hzy, ih ys zs hab hbc]

theorem charListLe_antisymm : ∀ a b : List Char,
    charListLe a b = true → charListLe b a = true → a = b := by
  intro a
  induction a with
  | nil =>
    intro b _ hba
    cases b with
    | nil => rfl
    | cons d ds => simp [charListLe] at hba
  | cons c cs ih =>
    intro b hab hba
    cases b with
    | nil => simp [charListLe] at hab
    | cons d ds =>
      simp only [charListLe] at hab hba
      by_cases h1 : c.toNat < d.toNat
      · simp [Nat.lt_asymm h1, Nat.lt_irrefl, h1] at hba
      · by_cases h2 : d.toNat < c.toNat
        · simp [h1, h2] at hab
        · have hcd : c.toNat = d.toNat := Nat.le_antisymm (Nat.le_of_not_lt h2) (Nat.le_of_not_lt h1)
          simp only [h1, h2, if_false, if_true] at hab hba
          have : c = d := by
            cases c; cases d
            simp only [Char.toNat] at hcd
            congr 1
            exact UInt32.toNat.inj hcd
          rw [this, ih ds hab hba]

instance : IsTotal String strLe :=
  ⟨fun a b => charListLe_total a.data b.data⟩

instance : IsTrans String strLe :=
  ⟨fun a b c => charListLe_trans a.data b.data c.data⟩

instance : IsAntisymm String strLe :=
  ⟨fun a b hab hba => String.ext (charListLe_antisymm a.data b.data hab hba)⟩

/-- Python `sorted` on a list of strings (ascending lexicographic,
stable; insertion sort is also stable). -/
def sortStrings (l : List String) : List String :=
  l.insertionSort strLe

/-- `build_indexes` from `build_inverted_index.py` (lines 67-107): the
CSV file is given as its parsed header and data rows (an absent header,
`reader.fieldnames` falsy, is the empty list). Raised `ValueError`s
become `Except.error` carrying the message. -/
def build_indexes (header : List String) (rows : List (List String)) (tags : List String)
    (study_uid_column : String) (missing_tokens : List String) : Except String InvIndex :=
  if header.isEmpty then Except.error "CSV file has no header row."
  else
    let missing_tags := tags.filter (fun t => decide (t ∉ header))
    if missing_tags.isEmpty then
      if study_uid_column ∈ header then
        Except.ok (rows.foldl (processRow header tags study_uid_column missing_tokens)
          (initIndexes tags))
      else Except.error ("CSV is missing required column: " ++ study_uid_column)
    else
      Except.error ("CSV is missing tag columns: " ++
        String.intercalate ", " (sortStrings missing_tags))

/-- Key-ordered comparison of association pairs, as used by
`json.dump(..., sort_keys=True)`. -/
def fstLe {β : Type} (a b : String × β) : Prop :=
  strLe a.1 b.1

instance {β : Type} : DecidableRel (fstLe (β := β)) :=
  fun a b => inferInstanceAs (Decidable (strLe a.1 b.1))

instance {β : Type} : IsTotal (String × β) fstLe :=
  ⟨fun a b => IsTotal.total (r := strLe) a.1 b.1⟩

instance {β : Type} : IsTrans (String × β) fstLe :=
  ⟨fun _ _ _ hab hbc => IsTrans.trans (r := strLe) _ _ _ hab hbc⟩

/-- The serialized content of one attribute's JSON file (lines 120-124):
`{value: sorted(uids)}` dumped with `sort_keys=True`. -/
def serializeValueMap (vm : ValueMap) : ValueMap :=
  List.insertionSort fstLe (vm.map (fun p => (p.1, sortStrings p.2)))

/-- Writing `v` at path/key `k`: overwrite the existing entry or create
it (both the output directory and the manifest dict behave this way). -/
def storeAssoc {β : Type} (m : List (String × β)) (k : String) (v : β) : List (String × β) :=
  if m.any (fun p => p.1 == k) then m.map (fun p => if p.1 == k then (p.1, v) else p)
  else m ++ [(k, v)]

/-- `write_indexes` from `build_inverted_index.py` (lines 110-131),
modelled as pure data: first component the files in the output
directory (path, serialized value map), second the manifest file
content, `{filename: sorted(value_map.keys())}` dumped with
`sort_keys=True`. -/
def write_indexes (ix : InvIndex) :
    List (String × ValueMap) × List (String × List String) :=
  let res := ix.foldl (fun acc e =>
    let filename := sanitize_filename e.1 ++ ".json"
    (storeAssoc acc.1 filename (serializeValueMap e.2),
     storeAssoc acc.2 filename (sortStrings (e.2.map Prod.fst)))) ([], [])
  (res.1, List.insertionSort fstLe res.2)

/-- The exit code of `main` in `build_inverted_index.py` (lines 155-167)
once the input files exist and the tag list is non-empty: any exception
from `build_indexes` yields 1, success writes the indexes and yields 0. -/
def index_main_exit (header : List String) (rows : List (List String)) (tags : List String)
    (study_uid_column : String) (missing_tokens : List String) : Nat :=
  match build_indexes header rows tags study_uid_column missing_tokens with
  | Except.error _ => 1
  | Except.ok _ => 0

/-- `_read_dicom_tags` from `dcmtag2table.py` (lines 8-21). `disk` is the
pydicom oracle: `disk filepath = none` when anything in the `try` block
fails (unreadable or non-conforming file), otherwise the dataset's
attribute lookup. For each requested tag the row holds the tag's value
when the dataset contains it and the literal sentinel `"Not found"`
otherwise. -/
def read_dicom_tags (disk : String → Option (String → Option String))
    (filepath : String) (list_of_tags : List String) : Option (List String) :=
  match disk filepath with
  | none => none
  | some ds => some (filepath :: list_of_tags.map (fun tag => (ds tag).getD "Not found"))

/-- Row comparison used by `df.sort_values(by=["Filename"], ascending=True)`:
rows compare by their first cell (the `Filename` column). -/
def rowLe (a b : List String) : Prop :=
  strLe (a.headD "") (b.headD "")

instance : DecidableRel rowLe :=
  fun a b => inferInstanceAs (Decidable (strLe (a.headD "") (b.headD "")))

instance : IsTotal (List String) rowLe :=
  ⟨fun a b => IsTotal.total (r := strLe) (a.headD "") (b.headD "")⟩

instance : IsTrans (List String) rowLe :=
  ⟨fun _ _ _ hab hbc => IsTrans.trans (r := strLe) _ _ _ hab hbc⟩

/-- `dcmtag2table_from_file_list` from `dcmtag2table.py` (lines 24-59),
returning the DataFrame as (column list, row list). Falsy (empty) paths
are filtered out first; an empty filtered list returns the empty table
before any worker pool is created; otherwise `ProcessPoolExecutor`
raises `ValueError` when `max_workers <= 0`. `order` is the
nondeterministic `as_completed` completion order of the scheduled files
(a permutation of the filtered list); a file whose read fails is skipped
with a warning, and the collected rows are finally sorted by the
`Filename` column. -/
def dcmtag2table_from_file_list (disk : String → Option (String → Option String))
    (filelist : List String) (list_of_tags : List String) (max_workers : Int)
    (order : List String) : Except String (List String × List (List String)) :=
  let filtered := filelist.filter (fun p => !p.isEmpty)
  if filtered.isEmpty then Except.ok ("Filename" :: list_of_tags, [])
  else if max_workers ≤ 0 then Except.error "max_workers must be greater than 0"
  else
    let rows := order.filterMap (fun f => read_dicom_tags disk f list_of_tags)
    Except.ok ("Filename" :: list_of_tags, rows.insertionSort rowLe)

/-- `DEFAULT_TAGS` from `main.py` (lines 18-37). -/
def DEFAULT_TAGS : List String :=
  ["StudyInstanceUID", "StudyDescription", "StudyDate", "StudyTime",
   "AccessionNumber", "PatientID", "PatientName", "PatientSex", "PatientAge",
   "Modality", "SeriesInstanceUID", "SeriesDescription", "SeriesNumber",
   "ProtocolName", "BodyPartExamined", "Manufacturer",
   "ManufacturerModelName", "StationName"]

/-- The line filter of `load_tags` in `main.py` (lines 91-96): trim each
line, drop blank lines and lines beginning with `#`. -/
def cleanTagLines (content : String) : List String :=
  (splitLines content).filterMap (fun line =>
    let trimmed := pyStrip line
    if trimmed.data.isEmpty then none
    else if trimmed.data.head? == some '#' then none
    else some trimmed)

/-- `load_tags` from `main.py` (lines 83-98). The argument models the
override path and the file system: `none` is a falsy `tags_file`
argument, `some none` a path that does not exist, `some (some c)` an
existing file with content `c`. -/
def load_tags (tags_file : Option (Option String)) : List String :=
  match tags_file with
  | none => DEFAULT_TAGS
  | some none => DEFAULT_TAGS
  | some (some content) =>
    let tags := cleanTagLines content
    if tags.isEmpty then DEFAULT_TAGS else tags

/-- The de-duplication a Python dict comprehension applies to its keys:
first occurrence wins, order preserved. Spec-side description used to
state how `build_indexes` collapses duplicated attribute names. -/
def dedupKeepFirst (tags : List String) : List String :=
  tags.foldl (fun acc t => if t ∈ acc then acc else acc ++ [t]) []

/-- A table row justifying that identifier `uid` is filed under value `v`
in attribute `tag`'s inverted index: the row's `tag` cell exists and
trims to `v`, `v` is not a missing token, the row's key-column cell trims
to `uid`, and `uid` is not a missing token. -/
def RowOk (header : List String) (key : String) (missing : List String)
    (tag v uid : String) (row : List String) : Prop :=
  (∃ raw, rowGet header row tag = some raw ∧ pyStrip raw = v) ∧
    v ∉ missing ∧ pyStrip ((rowGet header row key).getD "") = uid ∧ uid ∉ missing

/-- Index soundness with respect to a set of table rows: every filed
identifier is justified by some row. -/
def SoundIx (header : List String) (key : String) (missing : List String)
    (rows : List (List String)) (ix : InvIndex) : Prop :=
  ∀ tag vm, (tag, vm) ∈ ix → ∀ v uids, (v, uids) ∈ vm → ∀ uid, uid ∈ uids →
    ∃ row, row ∈ rows ∧ RowOk header key missing tag v uid row

/-- Two in-memory results of `build_indexes` produced by two runs on
byte-identical input: Python dict insertion order is deterministic, so
the attribute entries and their value entries agree pairwise in order
and key; only the identifier sets (Python `set`, iteration order
randomized by string hashing across processes) may enumerate in a
different order. -/
def RunEquiv (ix₁ ix₂ : InvIndex) : Prop :=
  List.Forall₂ (fun e₁ e₂ => e₁.1 = e₂.1 ∧
    List.Forall₂ (fun p q => p.1 = q.1 ∧ p.2.Perm q.2) e₁.2 e₂.2) ix₁ ix₂

/-! ## Theorems -/

/-- C6: On the concrete table with header `Filename,Modality,StudyInstanceUID`
and rows `(a.dcm, CT, S1)`, `(b.dcm, CT, S2)`, `(c.dcm, "Not found", S1)`,
with key column `StudyInstanceUID`, attribute `Modality` and the default
missing tokens, `build_indexes` produces the Modality index
`{"CT": ["S1", "S2"]}` (the `"Not found"` cell is excluded as a default
missing token) and the manifest entry for the Modality file lists exactly
`["CT"]`. -/
theorem index_concrete_scenario :
    build_indexes ["Filename", "Modality", "StudyInstanceUID"]
      [["a.dcm", "CT", "S1"], ["b.dcm", "CT", "S2"], ["c.dcm", "Not found", "S1"]]
      ["Modality"] "StudyInstanceUID" MISSING_TOKENS =
      Except.ok [("Modality", [("CT", ["S1", "S2"])])] ∧
    write_indexes [("Modality", [("CT", ["S1", "S2"])])] =
      ([("Modality.json", [("CT", ["S1", "S2"])])], [("Modality.json", ["CT"])]) :=
  ⟨rfl, rfl⟩

/-- C3: For every successfully read file (the pydicom oracle returns a
dataset) and every requested attribute, the extraction row holds the
attribute's value when the dataset contains it and the literal string
`"Not found"` when it is absent; the row has exactly one cell per
requested attribute after the filename (no cell omitted or null), and a
missing attribute never causes the file to be skipped (the reader still
returns a row). -/
theorem read_dicom_tags_policy (disk : String → Option (String → Option String))
    (filepath : String) (list_of_tags : List String) (ds : String → Option String)
    (h : disk filepath = some ds) :
    (read_dicom_tags disk filepath list_of_tags).isSome = true ∧
    ∀ row, read_dicom_tags disk filepath list_of_tags = some row →
      row.length = list_of_tags.length + 1 ∧
      row.head? = some filepath ∧
      ∀ i : Fin list_of_tags.length,
        (∀ v, ds (list_of_tags.get i) = some v → row.get? (i.1 + 1) = some v) ∧
        (ds (list_of_tags.get i) = none → row.get? (i.1 + 1) = some "Not found") := by
  constructor
  · simp [read_dicom_tags, h]
  · intro row hrow
    simp only [read_dicom_tags, h] at hrow
    have hrow' : row = filepath :: list_of_tags.map (fun tag => (ds tag).getD "Not found") :=
      (Option.some.inj hrow).symm
    subst hrow'
    refine ⟨by simp, rfl, ?_⟩
    intro i
    have hcell : (filepath :: list_of_tags.map (fun tag => (ds tag).getD "Not found")).get?
        (i.1 + 1) = some ((ds (list_of_tags.get i)).getD "Not found") := by
      simp [List.getElem?_map, List.get?_eq_get i.2]
    constructor
    · intro v hv
      rw [hcell, hv]
      rfl
    · intro hv
      rw [hcell, hv]
      rfl

/-- Closed witness for C3 at a concrete oracle: the dataset holds
`Modality` but not `PatientID`, and the reader still returns a row. -/
theorem read_dicom_tags_policy_witness :
    (read_dicom_tags
      (fun _ => some (fun t => if t == "Modality" then some "CT" else none))
      "a.dcm" ["Modality", "PatientID"]).isSome = true :=
  (read_dicom_tags_policy
    (fun _ => some (fun t => if t == "Modality" then some "CT" else none))
    "a.dcm" ["Modality", "PatientID"]
    (fun t => if t == "Modality" then some "CT" else none) rfl).1

/-- C9: The attribute list resolver never fails and always returns a
non-empty list: with no override path (or a path that does not exist) it
returns the built-in default list; with an override file it returns the
file's lines trimmed, with blank lines and lines beginning with `#`
removed, falling back to the default list when nothing remains. -/
theorem load_tags_resolver (tf : Option (Option String)) :
    load_tags tf ≠ [] ∧
    (tf = none → load_tags tf = DEFAULT_TAGS) ∧
    (tf = some none → load_tags tf = DEFAULT_TAGS) ∧
    ∀ c, tf = some (some c) →
      (cleanTagLines c = [] → load_tags tf = DEFAULT_TAGS) ∧
      (cleanTagLines c ≠ [] → load_tags tf = cleanTagLines c) := by
  have hdef : DEFAULT_TAGS ≠ [] := by simp [DEFAULT_TAGS]
  match tf with
  | none =>
    exact ⟨hdef, fun _ => rfl, fun hc => absurd hc (by simp), fun c hc => absurd hc (by simp)⟩
  | some none =>
    exact ⟨hdef, fun hc => absurd hc (by simp), fun _ => rfl, fun c hc => absurd hc (by simp)⟩
  | some (some content) =>
    refine ⟨?_, fun hc => absurd hc (by simp), fun hc => absurd hc (by simp), ?_⟩
    · by_cases he : cleanTagLines content = []
      · simp only [load_tags, List.isEmpty_iff, he]
        simp [hdef]
      · simp only [load_tags]
        intro hcon
        rw [if_neg (by simpa [List.isEmpty_iff] using he)] at hcon
        exact he hcon
    · intro c hc
      have hcc : c = content := by
        injection hc with hc1
        injection hc1 with hc2
        exact hc2.symm
      subst hcc
      constructor
      · intro he
        simp [load_tags, List.isEmpty_iff, he]
      · intro he
        simp [load_tags, List.isEmpty_iff, he]

/-- Closed witness for C9: a file containing only a comment line falls
back to the default list. -/
theorem load_tags_resolver_witness :
    load_tags (some (some "# x")) = DEFAULT_TAGS :=
  ((load_tags_resolver (some (some "# x"))).2.2.2 "# x" rfl).1 rfl

/-- C4: `build_indexes` validates before processing any row: it fails on
a missing header, fails naming all missing attribute columns at once
when any requested attribute is absent, and fails when the key column is
absent; on any such validation failure the error is raised for every row
set (no row is processed) and the CLI run exits non-zero. -/
theorem build_indexes_validation (header : List String) (rows : List (List String))
    (tags : List String) (key : String) (missing : List String)
    (hbad : header = [] ∨ tags.filter (fun t => decide (t ∉ header)) ≠ [] ∨ key ∉ header) :
    ∃ msg, (∀ rows₂ : List (List String),
        build_indexes header rows₂ tags key missing = Except.error msg) ∧
      index_main_exit header rows tags key missing = 1 ∧
      (header ≠ [] → tags.filter (fun t => decide (t ∉ header)) ≠ [] →
        msg = "CSV is missing tag columns: " ++
          String.intercalate ", " (sortStrings (tags.filter (fun t => decide (t ∉ header))))) := by
  by_cases hh : header = []
  · have herr : ∀ rows₂ : List (List String),
        build_indexes header rows₂ tags key missing =
          Except.error "CSV file has no header row." := by
      intro rows₂
      simp only [build_indexes]
      rw [if_pos (List.isEmpty_iff.mpr hh)]
    refine ⟨_, herr, ?_, fun hcon _ => absurd hh hcon⟩
    simp [index_main_exit, herr rows]
  · have hh2 : ¬(header.isEmpty = true) := fun hc => hh (List.isEmpty_iff.mp hc)
    by_cases hm : tags.filter (fun t => decide (t ∉ header)) = []
    · have hk : key ∉ header := by
        rcases hbad with h | h | h
        · exact absurd h hh
        · exact absurd hm h
        · exact h
      have herr : ∀ rows₂ : List (List String),
          build_indexes header rows₂ tags key missing =
            Except.error ("CSV is missing required column: " ++ key) := by
        intro rows₂
        simp only [build_indexes]
        rw [if_neg hh2, if_pos (List.isEmpty_iff.mpr hm), if_neg hk]
      refine ⟨_, herr, ?_, fun _ hcon => absurd hm hcon⟩
      simp [index_main_exit, herr rows]
    · have hm2 : ¬((tags.filter (fun t => decide (t ∉ header))).isEmpty = true) :=
        fun hc => hm (List.isEmpty_iff.mp hc)
      have herr : ∀ rows₂ : List (List String),
          build_indexes header rows₂ tags key missing =
            Except.error ("CSV is missing tag columns: " ++
              String.intercalate ", "
                (sortStrings (tags.filter (fun t => decide (t ∉ header))))) := by
        intro rows₂
        simp only [build_indexes]
        rw [if_neg hh2, if_neg hm2]
      refine ⟨_, herr, ?_, fun _ _ => rfl⟩
      simp [index_main_exit, herr rows]

/-- Closed witness for C4: a table lacking the `Zeta` and `Modality`
columns makes the CLI exit with code 1. -/
theorem build_indexes_validation_witness :
    index_main_exit ["Filename", "StudyInstanceUID"] [] ["Zeta", "Modality"]
      "StudyInstanceUID" MISSING_TOKENS = 1 := by
  obtain ⟨msg, hall, hexit, hagg⟩ :=
    build_indexes_validation ["Filename", "StudyInstanceUID"] [] ["Zeta", "Modality"]
      "StudyInstanceUID" MISSING_TOKENS (Or.inr (Or.inl (by decide)))
  exact hexit

theorem anyFst_eq_mem {β : Type} (l : List (String × β)) (t : String) :
    l.any (fun e => e.1 == t) = true ↔ t ∈ l.map Prod.fst := by
  rw [List.any_eq_true]
  constructor
  · rintro ⟨e, he, heq⟩
    exact List.mem_map.mpr ⟨e, he, beq_iff_eq.mp heq⟩
  · rintro h
    obtain ⟨e, he, heq⟩ := List.mem_map.mp h
    exact ⟨e, he, beq_iff_eq.mpr heq⟩

theorem initIndexes_map_fst (tags : List String) :
    (initIndexes tags).map Prod.fst = dedupKeepFirst tags := by
  suffices h : ∀ acc : InvIndex,
      (tags.foldl (fun ix t => if ix.any (fun e => e.1 == t) then ix else ix ++ [(t, [])]) acc).map
        Prod.fst =
      tags.foldl (fun acc t => if t ∈ acc then acc else acc ++ [t]) (acc.map Prod.fst) by
    exact h []
  induction tags with
  | nil => intro acc; rfl
  | cons t ts ih =>
    intro acc
    simp only [List.foldl_cons]
    have hstep : ((if acc.any (fun e => e.1 == t) then acc else acc ++ [(t, [])]) :
        InvIndex).map Prod.fst =
        (if t ∈ acc.map Prod.fst then acc.map Prod.fst else acc.map Prod.fst ++ [t]) := by
      by_cases hmem : t ∈ acc.map Prod.fst
      · rw [if_pos ((anyFst_eq_mem acc t).mpr hmem), if_pos hmem]
      · rw [if_neg (fun hc => hmem ((anyFst_eq_mem acc t).mp hc)), if_neg hmem]
        simp
    rw [ih _, hstep]

theorem ixUpdate_map_fst (ix : InvIndex) (tag v uid : String) :
    (ixUpdate ix tag v uid).map Prod.fst = ix.map Prod.fst := by
  unfold ixUpdate
  rw [List.map_map]
  apply List.map_congr_left
  intro e _
  by_cases h : e.1 == tag
  · rw [Function.comp_apply, if_pos h]
  · rw [Function.comp_apply, if_neg h]

theorem processRow_map_fst (header : List String) (tags : List String) (key : String)
    (missing : List String) (ix : InvIndex) (row : List String) :
    (processRow header tags key missing ix row).map Prod.fst = ix.map Prod.fst := by
  unfold processRow
  by_cases hu : pyStrip ((rowGet header row key).getD "") ∈ missing
  · simp [hu]
  · simp only [hu, if_neg, if_false]
    induction tags generalizing ix with
    | nil => rfl
    | cons t ts ih =>
      simp only [List.foldl_cons]
      cases hget : rowGet header row t with
      | none => exact ih _
      | some raw =>
        by_cases hmiss : pyStrip raw ∈ missing
        · simp only [hmiss, if_pos]
          exact ih _
        · simp only [hmiss, if_neg, if_false]
          rw [ih _, ixUpdate_map_fst]

theorem foldl_processRow_map_fst (header : List String) (tags : List String) (key : String)
    (missing : List String) (rs : List (List String)) (ix : InvIndex) :
    (rs.foldl (processRow header tags key missing) ix).map Prod.fst = ix.map Prod.fst := by
  induction rs generalizing ix with
  | nil => rfl
  | cons r rs ih => rw [List.foldl_cons, ih, processRow_map_fst]

theorem build_indexes_ok_eq (header : List String) (rows : List (List String))
    (tags : List String) (key : String) (missing : List String) (ix : InvIndex)
    (h : build_indexes header rows tags key missing = Except.ok ix) :
    ix = rows.foldl (processRow header tags key missing) (initIndexes tags) := by
  simp only [build_indexes] at h
  by_cases hh : header.isEmpty
  · rw [if_pos hh] at h
    exact absurd h (by simp)
  · rw [if_neg hh] at h
    by_cases hm : (tags.filter (fun t => decide (t ∉ header))).isEmpty
    · rw [if_pos hm] at h
      by_cases hk : key ∈ header
      · rw [if_pos hk] at h
        exact (Except.ok.inj h).symm
      · rw [if_neg hk] at h
        exact absurd h (by simp)
    · rw [if_neg hm] at h
      exact absurd h (by simp)

/-- C7 counterexample: with the attribute list `["Modality", "Modality"]`
(two occurrences) the index builder's output holds a single value map,
not one per occurrence — the dict comprehension collapses duplicates. -/
theorem duplicate_attribute_single_map :
    build_indexes ["Filename", "Modality", "StudyInstanceUID"] [["a.dcm", "CT", "S1"]]
      ["Modality", "Modality"] "StudyInstanceUID" MISSING_TOKENS =
      Except.ok [("Modality", [("CT", ["S1"])])] :=
  rfl

/-- C7 amended: each occurrence of a duplicated attribute name produces
its own column in the extraction table (one cell per occurrence in every
row), but the index builder collapses duplicates: its output holds one
value map per distinct attribute name, in first-occurrence order. -/
theorem duplicate_attribute_columns_and_maps (header : List String)
    (rows : List (List String)) (tags : List String) (key : String)
    (missing : List String) (ix : InvIndex)
    (hix : build_indexes header rows tags key missing = Except.ok ix)
    (disk : String → Option (String → Option String)) (filepath : String)
    (ds : String → Option String) (hds : disk filepath = some ds) :
    ix.map Prod.fst = dedupKeepFirst tags ∧
    ∀ row, read_dicom_tags disk filepath tags = some row →
      row.length = tags.length + 1 := by
  constructor
  · rw [build_indexes_ok_eq header rows tags key missing ix hix,
      foldl_processRow_map_fst, initIndexes_map_fst]
  · intro row hrow
    simp only [read_dicom_tags, hds] at hrow
    have : row = filepath :: tags.map (fun tag => (ds tag).getD "Not found") :=
      (Option.some.inj hrow).symm
    subst this
    simp

/-- Closed witness for C7's amended statement at the duplicate-attribute
input. -/
theorem duplicate_attribute_columns_and_maps_witness :
    ([("Modality", [("CT", ["S1"])])] : InvIndex).map Prod.fst =
      dedupKeepFirst ["Modality", "Modality"] :=
  (duplicate_attribute_columns_and_maps ["Filename", "Modality", "StudyInstanceUID"]
    [["a.dcm", "CT", "S1"]] ["Modality", "Modality"] "StudyInstanceUID" MISSING_TOKENS
    [("Modality", [("CT", ["S1"])])] rfl
    (fun _ => some (fun _ => none)) "a.dcm" (fun _ => none) rfl).1

theorem mem_setAdd {s : List String} {u x : String} (h : x ∈ setAdd s u) : x ∈ s ∨ x = u := by
  unfold setAdd at h
  by_cases hc : u ∈ s
  · rw [if_pos hc] at h
    exact Or.inl h
  · rw [if_neg hc] at h
    rcases List.mem_append.mp h with h | h
    · exact Or.inl h
    · exact Or.inr (List.mem_singleton.mp h)

theorem mem_amUpdate {vm : ValueMap} {v uid v' : String} {uids' : List String}
    (h : (v', uids') ∈ amUpdate vm v uid) :
    (∃ uids, (v', uids) ∈ vm ∧ (uids' = uids ∨ (v' = v ∧ uids' = setAdd uids uid))) ∨
      (v' = v ∧ uids' = [uid]) := by
  unfold amUpdate at h
  by_cases hc : vm.any (fun p => p.1 == v)
  · rw [if_pos hc] at h
    obtain ⟨⟨a, b⟩, hp, heq⟩ := List.mem_map.mp h
    by_cases hpv : a == v
    · rw [if_pos hpv] at heq
      injection heq with h1 h2
      subst h1
      left
      exact ⟨b, hp, Or.inr ⟨(beq_iff_eq.mp hpv), h2.symm⟩⟩
    · rw [if_neg hpv] at heq
      injection heq with h1 h2
      subst h1
      subst h2
      left
      exact ⟨b, hp, Or.inl rfl⟩
  · rw [if_neg hc] at h
    rcases List.mem_append.mp h with h | h
    · left
      exact ⟨uids', h, Or.inl rfl⟩
    · right
      have heq := List.mem_singleton.mp h
      injection heq with h1 h2
      exact ⟨h1, h2⟩

theorem mem_ixUpdate {ix : InvIndex} {tag v uid t' : String} {vm' : ValueMap}
    (h : (t', vm') ∈ ixUpdate ix tag v uid) :
    ∃ vm, (t', vm) ∈ ix ∧ (vm' = vm ∨ (t' = tag ∧ vm' = amUpdate vm v uid)) := by
  unfold ixUpdate at h
  obtain ⟨⟨a, b⟩, hp, heq⟩ := List.mem_map.mp h
  by_cases hat : a == tag
  · rw [if_pos hat] at heq
    injection heq with h1 h2
    subst h1
    exact ⟨b, hp, Or.inr ⟨beq_iff_eq.mp hat, h2.symm⟩⟩
  · rw [if_neg hat] at heq
    injection heq with h1 h2
    subst h1
    subst h2
    exact ⟨b, hp, Or.inl rfl⟩

theorem soundIx_ixUpdate {header : List String} {key : String} {missing : List String}
    {rows : List (List String)} {ix : InvIndex} {tag v uid : String} {row : List String}
    (hs : SoundIx header key missing rows ix) (hrow : row ∈ rows)
    (hok : RowOk header key missing tag v uid row) :
    SoundIx header key missing rows (ixUpdate ix tag v uid) := by
  intro t' vm' hmem v' uids' hv' u hu
  obtain ⟨vm, hvm, hcase⟩ := mem_ixUpdate hmem
  rcases hcase with rfl | ⟨rfl, rfl⟩
  · exact hs t' _ hvm v' uids' hv' u hu
  · rcases mem_amUpdate hv' with ⟨uids, huids, hc⟩ | ⟨rfl, rfl⟩
    · rcases hc with rfl | ⟨rfl, rfl⟩
      · exact hs _ _ hvm _ _ huids u hu
      · rcases mem_setAdd hu with hu' | rfl
        · exact hs _ _ hvm _ _ huids u hu'
        · exact ⟨row, hrow, hok⟩
    · rw [List.mem_singleton.mp hu]
      exact ⟨row, hrow, hok⟩

theorem soundIx_tagsFold {header : List String} {key : String} {missing : List String}
    {rows : List (List String)} {row : List String} (hrow : row ∈ rows) (uidv : String)
    (hmatch : pyStrip ((rowGet header row key).getD "") = uidv) (huid : uidv ∉ missing) :
    ∀ (tags : List String) (ix : InvIndex), SoundIx header key missing rows ix →
      SoundIx header key missing rows (tags.foldl (fun ix tag =>
        match rowGet header row tag with
        | none => ix
        | some raw =>
          if pyStrip raw ∈ missing then ix
          else ixUpdate ix tag (pyStrip raw) uidv) ix) := by
  intro tags
  induction tags with
  | nil => intro ix hs; exact hs
  | cons t ts ih =>
    intro ix hs
    rw [List.foldl_cons]
    apply ih
    cases hget : rowGet header row t with
    | none =>
      simp only [hget]
      exact hs
    | some raw =>
      by_cases hm : pyStrip raw ∈ missing
      · simp only [hget, if_pos hm]
        exact hs
      · simp only [hget, if_neg hm]
        exact soundIx_ixUpdate hs hrow ⟨⟨raw, hget, rfl⟩, hm, hmatch, huid⟩

theorem soundIx_processRow {header : List String} {tags : List String} {key : String}
    {missing : List String} {rows : List (List String)} {ix : InvIndex} {row : List String}
    (hrow : row ∈ rows) (hs : SoundIx header key missing rows ix) :
    SoundIx header key missing rows (processRow header tags key missing ix row) := by
  simp only [processRow]
  by_cases hu : pyStrip ((rowGet header row key).getD "") ∈ missing
  · rw [if_pos hu]
    exact hs
  · rw [if_neg hu]
    exact soundIx_tagsFold hrow _ rfl hu tags ix hs

theorem soundIx_foldRows {header : List String} {tags : List String} {key : String}
    {missing : List String} {rows : List (List String)} :
    ∀ (rs : List (List String)) (ix : InvIndex), (∀ r ∈ rs, r ∈ rows) →
      SoundIx header key missing rows ix →
      SoundIx header key missing rows (rs.foldl (processRow header tags key missing) ix) := by
  intro rs
  induction rs with
  | nil => intro ix _ hs; exact hs
  | cons r rs ih =>
    intro ix hsub hs
    rw [List.foldl_cons]
    exact ih _ (fun x hx => hsub x (List.mem_cons_of_mem r hx))
      (soundIx_processRow (hsub r (List.mem_cons_self r rs)) hs)

theorem initIndexes_snd_nil {tags : List String} :
    ∀ e ∈ initIndexes tags, e.2 = ([] : ValueMap) := by
  suffices h : ∀ (acc : InvIndex), (∀ e ∈ acc, e.2 = ([] : ValueMap)) →
      ∀ e ∈ tags.foldl
        (fun ix t => if ix.any (fun e => e.1 == t) then ix else ix ++ [(t, [])]) acc,
        e.2 = ([] : ValueMap) by
    exact h [] (fun e he => absurd he (List.not_mem_nil e))
  induction tags with
  | nil => intro acc hacc; exact hacc
  | cons t ts ih =>
    intro acc hacc
    rw [List.foldl_cons]
    apply ih
    by_cases hc : acc.any (fun e => e.1 == t)
    · rw [if_pos hc]
      exact hacc
    · rw [if_neg hc]
      intro e he
      rcases List.mem_append.mp he with he | he
      · exact hacc e he
      · rw [List.mem_singleton.mp he]

theorem initIndexes_sound (header : List String) (key : String) (missing : List String)
    (rows : List (List String)) (tags : List String) :
    SoundIx header key missing rows (initIndexes tags) := by
  intro tag vm hvm v uids hv u _
  have : (tag, vm).2 = ([] : ValueMap) := initIndexes_snd_nil (tag, vm) hvm
  simp only at this
  subst this
  exact absurd hv (List.not_mem_nil _)

/-- C1: Index soundness. Whenever `build_indexes` succeeds, every
identifier filed under value `v` in attribute `tag`'s inverted index is
justified by at least one input row: that row's `tag` cell exists and
trims to exactly `v` (not a missing token), and the row's key-column
cell trims to exactly that identifier (not a missing token). In
particular rows whose trimmed key-column value is a missing token
contribute nothing — no filed identifier is a missing token. -/
theorem build_indexes_sound (header : List String) (rows : List (List String))
    (tags : List String) (key : String) (missing : List String) (ix : InvIndex)
    (h : build_indexes header rows tags key missing = Except.ok ix) :
    ∀ tag vm, (tag, vm) ∈ ix → ∀ v uids, (v, uids) ∈ vm → ∀ uid, uid ∈ uids →
      ∃ row, row ∈ rows ∧
        (∃ raw, rowGet header row tag = some raw ∧ pyStrip raw = v) ∧
        v ∉ missing ∧
        pyStrip ((rowGet header row key).getD "") = uid ∧ uid ∉ missing := by
  have hix := build_indexes_ok_eq header rows tags key missing ix h
  subst hix
  have hsound : SoundIx header key missing rows
      (rows.foldl (processRow header tags key missing) (initIndexes tags)) :=
    soundIx_foldRows rows (initIndexes tags) (fun r hr => hr)
      (initIndexes_sound header key missing rows tags)
  intro tag vm hvm v uids hv uid hu
  obtain ⟨row, hrow, hok⟩ := hsound tag vm hvm v uids hv uid hu
  exact ⟨row, hrow, hok.1, hok.2.1, hok.2.2.1, hok.2.2.2⟩

/-- Closed witness for C1: in the two-row table, the identifier `S2`
filed under `Modality = CT` is justified by a real row. -/
theorem build_indexes_sound_witness :
    ∃ row, row ∈ [["a.dcm", "CT", "S1"], ["b.dcm", "CT", "S2"]] ∧
      (∃ raw, rowGet ["Filename", "Modality", "StudyInstanceUID"] row "Modality" =
          some raw ∧ pyStrip raw = "CT") ∧
      "CT" ∉ MISSING_TOKENS ∧
      pyStrip ((rowGet ["Filename", "Modality", "StudyInstanceUID"] row
        "StudyInstanceUID").getD "") = "S2" ∧
      "S2" ∉ MISSING_TOKENS :=
  build_indexes_sound ["Filename", "Modality", "StudyInstanceUID"]
    [["a.dcm", "CT", "S1"], ["b.dcm", "CT", "S2"]] ["Modality"] "StudyInstanceUID"
    MISSING_TOKENS [("Modality", [("CT", ["S1", "S2"])])] rfl
    "Modality" [("CT", ["S1", "S2"])] (by simp) "CT" ["S1", "S2"] (by simp)
    "S2" (by simp)

theorem read_some_shape {disk : String → Option (String → Option String)} {f : String}
    {tags row : List String} (h : read_dicom_tags disk f tags = some row) :
    ∃ ds, disk f = some ds ∧ row = f :: tags.map (fun tag => (ds tag).getD "Not found") := by
  unfold read_dicom_tags at h
  cases hd : disk f with
  | none =>
    rw [hd] at h
    exact absurd h (by simp)
  | some ds =>
    rw [hd] at h
    exact ⟨ds, rfl, (Option.some.inj h).symm⟩

theorem length_filterMap_reads (disk : String → Option (String → Option String))
    (tags : List String) :
    ∀ l : List String,
      (l.filterMap (fun f => read_dicom_tags disk f tags)).length +
        (l.filter (fun f => (disk f).isNone)).length = l.length := by
  intro l
  induction l with
  | nil => rfl
  | cons f fs ih =>
    cases hd : disk f with
    | none =>
      have hread : read_dicom_tags disk f tags = none := by
        unfold read_dicom_tags
        rw [hd]
      rw [List.filterMap_cons, hread, List.filter_cons]
      simp only [hd, Option.isNone_none, if_pos]
      simp only [List.length_cons]
      omega
    | some ds =>
      have hread : read_dicom_tags disk f tags =
          some (f :: tags.map (fun tag => (ds tag).getD "Not found")) := by
        unfold read_dicom_tags
        rw [hd]
      rw [List.filterMap_cons, hread, List.filter_cons]
      simp only [hd, Option.isNone_some, if_neg, Bool.false_eq_true, not_false_iff]
      simp only [List.length_cons]
      omega

/-- C2: With a valid worker count, the extraction engine always succeeds;
its table is sorted by the `Filename` column ascending regardless of the
order in which the worker pool completes the files, and its row count
equals the number of non-empty input paths minus the number of files
whose read failed. -/
theorem extraction_sorted_and_count (disk : String → Option (String → Option String))
    (filelist list_of_tags order : List String) (max_workers : Int)
    (hw : 1 ≤ max_workers)
    (hperm : order.Perm (filelist.filter (fun p => !p.isEmpty))) :
    ∃ rows, dcmtag2table_from_file_list disk filelist list_of_tags max_workers order =
        Except.ok ("Filename" :: list_of_tags, rows) ∧
      rows.Sorted rowLe ∧
      rows.length = (filelist.filter (fun p => !p.isEmpty)).length -
        ((filelist.filter (fun p => !p.isEmpty)).filter (fun f => (disk f).isNone)).length := by
  by_cases hempty : (filelist.filter (fun p => !p.isEmpty)) = []
  · refine ⟨[], ?_, List.sorted_nil, by simp [hempty]⟩
    simp only [dcmtag2table_from_file_list]
    rw [if_pos (List.isEmpty_iff.mpr hempty)]
  · have hne : ¬((filelist.filter (fun p => !p.isEmpty)).isEmpty = true) :=
      fun hc => hempty (List.isEmpty_iff.mp hc)
    have hwpos : ¬(max_workers ≤ 0) := by omega
    refine ⟨(order.filterMap
        (fun f => read_dicom_tags disk f list_of_tags)).insertionSort rowLe, ?_, ?_, ?_⟩
    · simp only [dcmtag2table_from_file_list]
      rw [if_neg hne, if_neg hwpos]
    · exact List.sorted_insertionSort rowLe _
    · rw [List.length_insertionSort]
      have hsum := length_filterMap_reads disk list_of_tags order
      have hlen := hperm.length_eq
      have hfil := (hperm.filter (fun f => (disk f).isNone)).length_eq
      have hsum2 := length_filterMap_reads disk list_of_tags
        (filelist.filter (fun p => !p.isEmpty))
      omega

/-- Closed witness for C2: three paths, one empty (filtered), one
unreadable; the result has one sorted row. -/
theorem extraction_sorted_and_count_witness :
    ∃ rows, dcmtag2table_from_file_list
        (fun f => if f == "b.dcm" then none else some (fun _ => none))
        ["b.dcm", "a.dcm", ""] ["Modality"] 4 ["a.dcm", "b.dcm"] =
        Except.ok (["Filename", "Modality"], rows) ∧
      rows.Sorted rowLe ∧ rows.length = 1 := by
  obtain ⟨rows, h1, h2, h3⟩ := extraction_sorted_and_count
    (fun f => if f == "b.dcm" then none else some (fun _ => none))
    ["b.dcm", "a.dcm", ""] ["Modality"] ["a.dcm", "b.dcm"] 4 (by omega)
    (List.Perm.swap "b.dcm" "a.dcm" [])
  refine ⟨rows, h1, h2, ?_⟩
  rw [h3]
  rfl

theorem sorted_perm_eq_of_mem_antisymm {α : Type} {r : α → α → Prop} :
    ∀ {l₁ l₂ : List α}, l₁.Perm l₂ → l₁.Sorted r → l₂.Sorted r →
      (∀ a ∈ l₁, ∀ b ∈ l₁, r a b → r b a → a = b) → l₁ = l₂ := by
  intro l₁
  induction l₁ with
  | nil =>
    intro l₂ hp _ _ _
    exact (List.Perm.eq_nil hp.symm).symm
  | cons a t₁ ih =>
    intro l₂ hp hs₁ hs₂ hanti
    cases l₂ with
    | nil => exact absurd (List.Perm.eq_nil hp) (by simp)
    | cons b t₂ =>
      have hab : a = b := by
        by_cases heq : a = b
        · exact heq
        · have hbmem₁ : b ∈ a :: t₁ := hp.mem_iff.mpr (List.mem_cons_self b t₂)
          have hamem₂ : a ∈ b :: t₂ := hp.mem_iff.mp (List.mem_cons_self a t₁)
          have hb₁ : b ∈ t₁ := by
            rcases List.mem_cons.mp hbmem₁ with h | h
            · exact absurd h.symm heq
            · exact h
          have ha₂ : a ∈ t₂ := by
            rcases List.mem_cons.mp hamem₂ with h | h
            · exact absurd h heq
            · exact h
          exact hanti a (List.mem_cons_self a t₁) b hbmem₁
            (List.rel_of_sorted_cons hs₁ b hb₁) (List.rel_of_sorted_cons hs₂ a ha₂)
      subst hab
      have htp : t₁.Perm t₂ := hp.cons_inv
      rw [ih htp hs₁.of_cons hs₂.of_cons
        (fun x hx y hy hr hr' =>
          hanti x (List.mem_cons_of_mem a hx) y (List.mem_cons_of_mem a hy) hr hr')]

theorem extractRows_antisymm (disk : String → Option (String → Option String))
    (tags order : List String) :
    ∀ a ∈ order.filterMap (fun f => read_dicom_tags disk f tags),
    ∀ b ∈ order.filterMap (fun f => read_dicom_tags disk f tags),
      rowLe a b → rowLe b a → a = b := by
  intro a ha b hb hab hba
  obtain ⟨fa, _, hfa⟩ := List.mem_filterMap.mp ha
  obtain ⟨fb, _, hfb⟩ := List.mem_filterMap.mp hb
  obtain ⟨dsa, hda, rfl⟩ := read_some_shape hfa
  obtain ⟨dsb, hdb, rfl⟩ := read_some_shape hfb
  have hfafb : fa = fb := by
    have h1 : strLe fa fb := by simpa [rowLe] using hab
    have h2 : strLe fb fa := by simpa [rowLe] using hba
    exact IsAntisymm.antisymm (r := strLe) fa fb h1 h2
  subst hfafb
  have hds : dsa = dsb := Option.some.inj (hda.symm.trans hdb)
  rw [hds]

/-- C8 counterexample: the extraction engine itself does not coerce the
worker count — called directly with `max_workers = 0` and a non-empty
file list it raises `ValueError` from the process pool instead of
succeeding. -/
theorem engine_worker_count_error :
    dcmtag2table_from_file_list (fun _ => none) ["a.dcm"] ["Modality"] 0 ["a.dcm"] =
      Except.error "max_workers must be greater than 0" :=
  rfl

/-- C8 amended: the CLI coerces the worker count with `max(1, n)` before
calling the engine, so for every integer `n`, extraction through the CLI
succeeds and returns the same table as worker count 1, for any worker
completion orders. The engine itself fails for worker counts at most 0
when the filtered file list is non-empty. -/
theorem engine_worker_count_clamped (disk : String → Option (String → Option String))
    (filelist list_of_tags order₁ order₂ : List String) (n : Int)
    (h₁ : order₁.Perm (filelist.filter (fun p => !p.isEmpty)))
    (h₂ : order₂.Perm (filelist.filter (fun p => !p.isEmpty))) :
    ∃ t, dcmtag2table_from_file_list disk filelist list_of_tags (max 1 n) order₁ =
        Except.ok t ∧
      dcmtag2table_from_file_list disk filelist list_of_tags 1 order₂ = Except.ok t := by
  by_cases hempty : (filelist.filter (fun p => !p.isEmpty)) = []
  · refine ⟨("Filename" :: list_of_tags, []), ?_, ?_⟩ <;>
      · simp only [dcmtag2table_from_file_list]
        rw [if_pos (List.isEmpty_iff.mpr hempty)]
  · have hne : ¬((filelist.filter (fun p => !p.isEmpty)).isEmpty = true) :=
      fun hc => hempty (List.isEmpty_iff.mp hc)
    have hmaxpos : ¬(max 1 n ≤ 0) := by
      have := le_max_left 1 n
      omega
    have h1pos : ¬((1 : Int) ≤ 0) := by omega
    refine ⟨("Filename" :: list_of_tags,
      (order₁.filterMap (fun f => read_dicom_tags disk f list_of_tags)).insertionSort rowLe),
      ?_, ?_⟩
    · simp only [dcmtag2table_from_file_list]
      rw [if_neg hne, if_neg hmaxpos]
    · simp only [dcmtag2table_from_file_list]
      rw [if_neg hne, if_neg h1pos]
      have hpm : (order₂.filterMap (fun f => read_dicom_tags disk f list_of_tags)).Perm
          (order₁.filterMap (fun f => read_dicom_tags disk f list_of_tags)) :=
        (h₂.trans h₁.symm).filterMap _
      have hsorteq :
          (order₂.filterMap (fun f => read_dicom_tags disk f list_of_tags)).insertionSort
            rowLe =
          (order₁.filterMap (fun f => read_dicom_tags disk f list_of_tags)).insertionSort
            rowLe := by
        apply sorted_perm_eq_of_mem_antisymm
          (r := rowLe)
          (((List.perm_insertionSort rowLe _).trans hpm).trans
            (List.perm_insertionSort rowLe _).symm)
          (List.sorted_insertionSort rowLe _) (List.sorted_insertionSort rowLe _)
        intro a ha b hb hab hba
        exact extractRows_antisymm disk list_of_tags order₂ a
          ((List.mem_insertionSort rowLe).mp ha) b ((List.mem_insertionSort rowLe).mp hb)
          hab hba
      rw [hsorteq]

/-- Closed witness for C8's amended statement: with `n = -3`, the clamped
call agrees with worker count 1 across different completion orders. -/
theorem engine_worker_count_clamped_witness :
    ∃ t, dcmtag2table_from_file_list (fun _ => some (fun _ => none)) ["b.dcm", "a.dcm"]
        ["Modality"] (max 1 (-3)) ["a.dcm", "b.dcm"] = Except.ok t ∧
      dcmtag2table_from_file_list (fun _ => some (fun _ => none)) ["b.dcm", "a.dcm"]
        ["Modality"] 1 ["b.dcm", "a.dcm"] = Except.ok t :=
  engine_worker_count_clamped (fun _ => some (fun _ => none)) ["b.dcm", "a.dcm"]
    ["Modality"] ["a.dcm", "b.dcm"] ["b.dcm", "a.dcm"] (-3)
    (List.Perm.swap "b.dcm" "a.dcm" []) (List.Perm.refl _)

theorem sortStrings_perm {l₁ l₂ : List String} (h : l₁.Perm l₂) :
    sortStrings l₁ = sortStrings l₂ := by
  apply List.eq_of_perm_of_sorted (r := strLe)
  · exact ((List.perm_insertionSort strLe l₁).trans h).trans
      (List.perm_insertionSort strLe l₂).symm
  · exact List.sorted_insertionSort strLe l₁
  · exact List.sorted_insertionSort strLe l₂

theorem serializeValueMap_congr {vm₁ vm₂ : ValueMap}
    (h : List.Forall₂ (fun p q => p.1 = q.1 ∧ p.2.Perm q.2) vm₁ vm₂) :
    serializeValueMap vm₁ = serializeValueMap vm₂ := by
  unfold serializeValueMap
  congr 1
  induction h with
  | nil => rfl
  | cons hpq _ ih =>
    simp only [List.map_cons, ih]
    congr 1
    exact Prod.ext hpq.1 (sortStrings_perm hpq.2)

theorem forall₂_map_fst {vm₁ vm₂ : ValueMap}
    (h : List.Forall₂ (fun p q => p.1 = q.1 ∧ p.2.Perm q.2) vm₁ vm₂) :
    vm₁.map Prod.fst = vm₂.map Prod.fst := by
  induction h with
  | nil => rfl
  | cons hpq _ ih => simp only [List.map_cons, ih, hpq.1]

theorem storeAssoc_mem {β : Type} {m : List (String × β)} {k : String} {v : β}
    {p : String × β} (h : p ∈ storeAssoc m k v) : p ∈ m ∨ p.2 = v := by
  unfold storeAssoc at h
  by_cases hc : m.any (fun p => p.1 == k)
  · rw [if_pos hc] at h
    obtain ⟨q, hq, heq⟩ := List.mem_map.mp h
    by_cases hqk : q.1 == k
    · rw [if_pos hqk] at heq
      right
      rw [← heq]
    · rw [if_neg hqk] at heq
      left
      rw [← heq]
      exact hq
  · rw [if_neg hc] at h
    rcases List.mem_append.mp h with h | h
    · exact Or.inl h
    · right
      rw [List.mem_singleton.mp h]

theorem write_indexes_foldl_congr (ix₁ ix₂ : InvIndex) (h : RunEquiv ix₁ ix₂) :
    ∀ acc : List (String × ValueMap) × List (String × List String),
      ix₁.foldl (fun acc e =>
        let filename := sanitize_filename e.1 ++ ".json"
        (storeAssoc acc.1 filename (serializeValueMap e.2),
         storeAssoc acc.2 filename (sortStrings (e.2.map Prod.fst)))) acc =
      ix₂.foldl (fun acc e =>
        let filename := sanitize_filename e.1 ++ ".json"
        (storeAssoc acc.1 filename (serializeValueMap e.2),
         storeAssoc acc.2 filename (sortStrings (e.2.map Prod.fst)))) acc := by
  induction h with
  | nil => intro acc; rfl
  | cons hpq _ ih =>
    intro acc
    simp only [List.foldl_cons]
    rw [hpq.1, serializeValueMap_congr hpq.2, forall₂_map_fst hpq.2]
    exact ih _

/-- C5: The index writer's per-attribute files hold key-sorted value
maps with sorted identifier sequences, and the manifest is
filename-sorted with sorted distinct-value lists; consequently the
writer's output is identical across two runs on byte-identical input,
whose in-memory indexes can differ only in the iteration order of the
identifier sets (`RunEquiv`). -/
theorem write_indexes_sorted_deterministic (ix₁ ix₂ : InvIndex) (h : RunEquiv ix₁ ix₂) :
    write_indexes ix₁ = write_indexes ix₂ ∧
    (∀ p ∈ (write_indexes ix₁).1,
      (p.2.map Prod.fst).Sorted strLe ∧ ∀ q ∈ p.2, q.2.Sorted strLe) ∧
    ((write_indexes ix₁).2.map Prod.fst).Sorted strLe ∧
    (∀ p ∈ (write_indexes ix₁).2, p.2.Sorted strLe) := by
  refine ⟨?_, ?_, ?_, ?_⟩
  · unfold write_indexes
    rw [write_indexes_foldl_congr ix₁ ix₂ h ([], [])]
  · intro p hp
    have hshape : ∃ vm, p.2 = serializeValueMap vm := by
      revert hp
      suffices hinv : ∀ (l : InvIndex)
          (acc : List (String × ValueMap) × List (String × List String)),
          (∀ q ∈ acc.1, ∃ vm, q.2 = serializeValueMap vm) →
          ∀ q ∈ (l.foldl (fun acc e =>
            let filename := sanitize_filename e.1 ++ ".json"
            (storeAssoc acc.1 filename (serializeValueMap e.2),
             storeAssoc acc.2 filename (sortStrings (e.2.map Prod.fst)))) acc).1,
            ∃ vm, q.2 = serializeValueMap vm by
        intro hp
        exact hinv ix₁ ([], []) (fun q hq => absurd hq (List.not_mem_nil q)) p hp
      intro l
      induction l with
      | nil => intro acc hacc q hq; exact hacc q hq
      | cons e es ih =>
        intro acc hacc q hq
        rw [List.foldl_cons] at hq
        refine ih _ ?_ q hq
        intro q' hq'
        rcases storeAssoc_mem hq' with h' | h'
        · exact hacc q' h'
        · exact ⟨e.2, h'⟩
    obtain ⟨vm, hvm⟩ := hshape
    constructor
    · rw [hvm]
      have hsorted : (serializeValueMap vm).Sorted fstLe :=
        List.sorted_insertionSort fstLe _
      exact List.pairwise_map.mpr hsorted
    · intro q hq
      rw [hvm] at hq
      have hq2 : q ∈ (vm.map (fun p => (p.1, sortStrings p.2))) :=
        (List.mem_insertionSort fstLe).mp hq
      obtain ⟨p', _, heq⟩ := List.mem_map.mp hq2
      rw [← heq]
      exact List.sorted_insertionSort strLe _
  · have hsorted : ((write_indexes ix₁).2).Sorted fstLe := by
      unfold write_indexes
      exact List.sorted_insertionSort fstLe _
    exact List.pairwise_map.mpr hsorted
  · intro p hp
    have hshape : ∃ l, p.2 = sortStrings l := by
      have hp2 : p ∈ (ix₁.foldl (fun acc e =>
          let filename := sanitize_filename e.1 ++ ".json"
          (storeAssoc acc.1 filename (serializeValueMap e.2),
           storeAssoc acc.2 filename (sortStrings (e.2.map Prod.fst)))) ([], [])).2 := by
        unfold write_indexes at hp
        exact (List.mem_insertionSort fstLe).mp hp
      revert hp2
      suffices hinv : ∀ (l : InvIndex)
          (acc : List (String × ValueMap) × List (String × List String)),
          (∀ q ∈ acc.2, ∃ s, q.2 = sortStrings s) →
          ∀ q ∈ (l.foldl (fun acc e =>
            let filename := sanitize_filename e.1 ++ ".json"
            (storeAssoc acc.1 filename (serializeValueMap e.2),
             storeAssoc acc.2 filename (sortStrings (e.2.map Prod.fst)))) acc).2,
            ∃ s, q.2 = sortStrings s by
        intro hp2
        exact hinv ix₁ ([], []) (fun q hq => absurd hq (List.not_mem_nil q)) p hp2
      intro l
      induction l with
      | nil => intro acc hacc q hq; exact hacc q hq
      | cons e es ih =>
        intro acc hacc q hq
        rw [List.foldl_cons] at hq
        refine ih _ ?_ q hq
        intro q' hq'
        rcases storeAssoc_mem hq' with h' | h'
        · exact hacc q' h'
        · exact ⟨e.2.map Prod.fst, h'⟩
    obtain ⟨l, hl⟩ := hshape
    rw [hl]
    exact List.sorted_insertionSort strLe _

/-- Closed witness for C5: the identifier set `{S1, S2}` enumerated in
either order serializes to the same bytes. -/
theorem write_indexes_sorted_deterministic_witness :
    write_indexes [("Modality", [("CT", ["S2", "S1"])])] =
      write_indexes [("Modality", [("CT", ["S1", "S2"])])] :=
  (write_indexes_sorted_deterministic [("Modality", [("CT", ["S2", "S1"])])]
    [("Modality", [("CT", ["S1", "S2"])])]
    (List.Forall₂.cons
      ⟨rfl, List.Forall₂.cons ⟨rfl, List.Perm.swap "S1" "S2" []⟩ List.Forall₂.nil⟩
      List.Forall₂.nil)).1

theorem storeAssoc_overwrite {β : Type} (k : String) (v v' : β) :
    storeAssoc [(k, v)] k v' = [(k, v')] := by
  unfold storeAssoc
  rw [if_pos]
  · simp
  · simp

/-- C10 (implicit): when two distinct attribute names sanitize to the
same output filename, the writer writes both maps to that one path — the
later-written attribute's file overwrites the earlier one's — and the
manifest holds a single entry for that filename with only the
last-written attribute's distinct values. -/
theorem write_indexes_collision (t₁ t₂ : String) (vm₁ vm₂ : ValueMap)
    (_hne : t₁ ≠ t₂) (hsan : sanitize_filename t₁ = sanitize_filename t₂) :
    write_indexes [(t₁, vm₁), (t₂, vm₂)] =
      ([(sanitize_filename t₂ ++ ".json", serializeValueMap vm₂)],
       [(sanitize_filename t₂ ++ ".json", sortStrings (vm₂.map Prod.fst))]) := by
  simp only [write_indexes, List.foldl_cons, List.foldl_nil, hsan]
  rw [show (storeAssoc ([] : List (String × ValueMap)) (sanitize_filename t₂ ++ ".json")
        (serializeValueMap vm₁)) = [(sanitize_filename t₂ ++ ".json", serializeValueMap vm₁)]
      from rfl,
    show (storeAssoc ([] : List (String × List String)) (sanitize_filename t₂ ++ ".json")
        (sortStrings (vm₁.map Prod.fst))) =
        [(sanitize_filename t₂ ++ ".json", sortStrings (vm₁.map Prod.fst))] from rfl,
    storeAssoc_overwrite, storeAssoc_overwrite]
  rfl

/-- Closed witness for C10: `"Patient ID"` and `"Patient#ID"` both
sanitize to `Patient_ID`, and only the second attribute's data survives. -/
theorem write_indexes_collision_witness :
    write_indexes [("Patient ID", [("CT", ["S1"])]), ("Patient#ID", [("MR", ["S2"])])] =
      ([("Patient_ID.json", [("MR", ["S2"])])], [("Patient_ID.json", ["MR"])]) := by
  rw [write_indexes_collision "Patient ID" "Patient#ID" [("CT", ["S1"])] [("MR", ["S2"])]
    (by decide) (by decide)]
  rfl

end Dcm
